import Mathlib

/-!
# Verification of the `auto_evaluator.py` grading pipeline

Shallow embedding of the core logic of `.github/tools/auto_evaluator.py`:

* the rubric chain merger `deep_merge` (lines 67-91) and the fold in `main`
  (lines 326-335);
* the file-selection scanner `run_scanner` (lines 176-238);
* the ensemble-consensus aggregation of `evaluate`, strategy `"C"`
  (lines 262-277);
* the defensive response parser `parse_json_from_text` (lines 125-147);
* the threshold post-processing in `main` (lines 357-373).

Python values are modelled as follows: YAML documents become the inductive
type `Yaml` (mappings are insertion-ordered association lists, matching
Python's ordered `dict`); machine-independent Python `int` becomes `Int`;
`float` arithmetic (`round(sum/len)`, `int(0.6 * peso_total)`) is modelled
by exact rational arithmetic together with Python's round-half-to-even and
truncation-toward-zero semantics (for the small integer operands the
program manipulates, double-precision evaluation of these expressions
agrees with the exact rational value); functions that raise return
`Option`, with `none` standing for the raised exception.  External
collaborators (the `json.loads` parser, the filesystem seen through
`glob`/`os.path`, and the iteration order of Python's hash-randomized
`set`) are parameters of the embedded functions.
-/

namespace AutoEval

/-! ## Python numeric helpers -/

/-- Python's `round` on an exact rational: round half to even (banker's
rounding), the semantics of `round` on Python floats. -/
def pyRound (q : ℚ) : ℤ :=
  let n := q.floor
  let f := q - n
  if f < 1/2 then n
  else if 1/2 < f then n + 1
  else if n % 2 = 0 then n else n + 1

/-- Python's `int(...)` applied to an exact rational: truncation toward
zero. -/
def pyTrunc (q : ℚ) : ℤ :=
  if 0 ≤ q then q.floor else -((-q).floor)

/-! ## YAML documents and `deep_merge` (auto_evaluator.py lines 67-91)

A rubric layer is a YAML document: scalars (strings, numbers), sequences,
and insertion-ordered mappings with string keys.  `deep_merge a b` merges
the overlay `b` over the base `a`. -/

inductive Yaml where
  | s : String → Yaml
  | i : Int → Yaml
  | list : List Yaml → Yaml
  | dict : List (String × Yaml) → Yaml

/-- Lookup in an insertion-ordered mapping (Python `d[k]` / `d.get(k)`). -/
def alookup (d : List (String × Yaml)) (k : String) : Option Yaml :=
  (d.find? (fun kv => kv.1 == k)).map (·.2)

/-- Python `{k: v for k, v in d.items() if k != "__op"}`: drop the
directive key, keeping insertion order. -/
def stripOp (d : List (String × Yaml)) : List (String × Yaml) :=
  d.filter (fun kv => kv.1 != "__op")

/-- Python `d.get("__op") == "replace"` (a missing key or a non-string
value compares unequal to the string). -/
def isReplaceDirective (d : List (String × Yaml)) : Bool :=
  match alookup d "__op" with
  | some (.s t) => t == "replace"
  | _ => false

/-- Python `d[k] = v` on an ordered `dict`: overwrite in place when the key
exists, append otherwise. -/
def setAssoc (d : List (String × Yaml)) (k : String) (v : Yaml) :
    List (String × Yaml) :=
  match d with
  | [] => [(k, v)]
  | (k', v') :: rest =>
    if k' == k then (k', v) :: rest else (k', v') :: setAssoc rest k v

mutual

/-- Equality of id keys, modelling Python `==` on the hashable scalars that
can appear as a criterion `id` (Python would raise `TypeError` before ever
using a list or mapping as a `dict` key, so structural equality on those
constructors is never exercised on well-formed input). -/
def yamlBEq : Yaml → Yaml → Bool
  | .s x, .s y => x == y
  | .i x, .i y => x == y
  | .list x, .list y => yamlListBEq x y
  | .dict x, .dict y => yamlDictBEq x y
  | _, _ => false
termination_by a => sizeOf a

/-- Pointwise equality of YAML sequences, companion of `yamlBEq`. -/
def yamlListBEq : List Yaml → List Yaml → Bool
  | [], [] => true
  | x :: xs, y :: ys => yamlBEq x y && yamlListBEq xs ys
  | _, _ => false
termination_by a => sizeOf a

/-- Pointwise equality of mapping entries, companion of `yamlBEq`. -/
def yamlDictBEq : List (String × Yaml) → List (String × Yaml) → Bool
  | [], [] => true
  | (k, v) :: xs, (k', v') :: ys =>
    k == k' && yamlBEq v v' && yamlDictBEq xs ys
  | _, _ => false
termination_by a => sizeOf a

end

/-- Lookup in the id-keyed index `idx` built by the criteria-list branch of
`deep_merge` (Python `idx[i]` / `i in idx`). -/
def idxLookup (idx : List (Yaml × Yaml)) (k : Yaml) : Option Yaml :=
  (idx.find? (fun p => yamlBEq p.1 k)).map (·.2)

/-- Python `idx[k] = v` on the id-keyed index: overwrite in place when the
key exists, append otherwise. -/
def setIdx (idx : List (Yaml × Yaml)) (k : Yaml) (v : Yaml) :
    List (Yaml × Yaml) :=
  match idx with
  | [] => [(k, v)]
  | (k', v') :: rest =>
    if yamlBEq k' k then (k', v) :: rest else (k', v') :: setIdx rest k v

/-- Guard of the criteria-list branch:
`all(isinstance(x, dict) and "id" in x for x in ...)`. -/
def allIdDicts (l : List Yaml) : Bool :=
  l.all fun x =>
    match x with
    | .dict d => (alookup d "id").isSome
    | _ => false

/-- Python `{x["id"]: x for x in a}` (line 81): an id-keyed index of the
base list; a later duplicate id overwrites the value but keeps the first
occurrence's position, as in a Python `dict` comprehension.  The branch is
only reached under the `allIdDicts` guard, so the skipping fallback cases
are never exercised. -/
def buildIdx (la : List Yaml) : List (Yaml × Yaml) :=
  la.foldl
    (fun idx x =>
      match x with
      | .dict d =>
        match alookup d "id" with
        | some idv => setIdx idx idv x
        | none => idx
      | _ => idx)
    []

mutual

/-- Embedding of `deep_merge(a, b)` (auto_evaluator.py lines 67-91):
merge the overlay `b` over the base `a`.  Note that the final fallback
(line 91, `return a`) returns the BASE operand. -/
def deep_merge (a b : Yaml) : Yaml :=
  match a, b with
  | .dict da, .dict db =>
    if isReplaceDirective db then .dict (stripOp db)
    else .dict (mergeEntries da db)
  | .list la, .list lb =>
    if allIdDicts la && allIdDicts lb then
      .list ((mergeIdx (buildIdx la) lb).map (·.2))
    else .list (la ++ lb)
  | a, _ => a
termination_by sizeOf b

/-- The loop `for k, v in b.items()` of the mapping branch (lines 72-77):
`out` starts as a copy of the base and is updated entry by entry. -/
def mergeEntries (out : List (String × Yaml)) :
    List (String × Yaml) → List (String × Yaml)
  | [] => out
  | (k, v) :: rest =>
    if k == "__op" then mergeEntries out rest
    else
      match alookup out k with
      | some old => mergeEntries (setAssoc out k (deep_merge old v)) rest
      | none => mergeEntries (out ++ [(k, v)]) rest
termination_by l => sizeOf l

/-- The loop `for it in b` of the criteria-list branch (lines 82-88),
updating the id-keyed index.  Reached only under the `allIdDicts` guard, so
the skipping fallback cases are never exercised (Python would raise
`KeyError` there). -/
def mergeIdx (idx : List (Yaml × Yaml)) : List Yaml → List (Yaml × Yaml)
  | [] => idx
  | .dict d :: rest =>
    if isReplaceDirective d then
      match alookup d "id" with
      | some idv => mergeIdx (setIdx idx idv (.dict (stripOp d))) rest
      | none => mergeIdx idx rest
    else
      match alookup d "id" with
      | some idv =>
        match idxLookup idx idv with
        | some old =>
          mergeIdx (setIdx idx idv (deep_merge old (.dict d))) rest
        | none => mergeIdx (idx ++ [(idv, .dict d)]) rest
      | none => mergeIdx idx rest
  | _ :: rest => mergeIdx idx rest
termination_by l => sizeOf l

end

/-- The chain fold of `main` (lines 326-334): `merged` starts as the empty
mapping and each layer, loaded in chain order (most specific first), is
merged as the base under the accumulated result as overlay:
`merged = deep_merge(data, merged)`. -/
def mainFold (chain : List Yaml) : Yaml :=
  chain.foldl (fun merged data => deep_merge data merged) (.dict [])

/-! ## The repository scanner `run_scanner` (auto_evaluator.py lines 176-238)

The filesystem snapshot is a collaborator: `glob` is the result list of
`glob.glob(pattern, recursive=True)`, `isfile` is `os.path.isfile`, `size`
is `os.path.getsize` (file sizes are nonnegative), and `pathExists` is
`Path(p).exists()`.  The iteration order of Python's `set(matches)`
(line 222) depends on the process's randomized string hashing, so it is a
further parameter `setOrder`: any function enumerating the distinct
matches in some order. -/

/-- One pick rule: `{"globs": [...], "take": n, "max_bytes": m}`; absent
keys default as in `rule.get("take", 1)` and
`rule.get("max_bytes", 20_000)`. -/
structure Rule where
  globs : List String
  take : Int := 1
  max_bytes : Int := 20000
deriving Repr, DecidableEq

/-- A filesystem snapshot, as seen through the library calls the scanner
makes. -/
structure FS where
  glob : String → List String
  isfile : String → Bool
  size : String → Nat
  pathExists : String → Bool

/-- The `estructura` section of the merged rubric, with the fields
`run_scanner` reads.  `none` stands for an absent key. -/
structure Estructura where
  required_files : List String := []
  required_any_of : List (List String) := []
  forbidden_globs : List String := []
  pick_rules : Option (List Rule) := none
  max_context_bytes : Option Int := none

/-- Python `int(struct.get("max_context_bytes", 120_000))` (line 181). -/
def maxTotalOf (e : Estructura) : Int :=
  e.max_context_bytes.getD 120000

/-- The hard-coded default pick rules (lines 194-200). -/
def defaultRules : List Rule :=
  [⟨["README.md"], 1, 20000⟩,
   ⟨["**/*.html", "**/*.tsx", "**/*.jsx"], 2, 30000⟩,
   ⟨["src/**/*.js", "src/**/*.ts", "src/**/*.py"], 3, 25000⟩,
   ⟨["**/*.css", "**/*.scss"], 1, 10000⟩,
   ⟨["**/*.test.*", "**/__tests__/**/*"], 2, 20000⟩]

/-- Python `struct.get("pick_rules") or [ ...defaults... ]` (line 194): an
absent key or an empty list (both falsy) select the defaults. -/
def rulesOf (e : Estructura) : List Rule :=
  match e.pick_rules with
  | some l => if l.isEmpty then defaultRules else l
  | none => defaultRules

/-- A structural violation recorded by the scanner (lines 183-192).  The
Python code renders these as the strings `missing:<p>`,
`missing_any_of:<group>` and `forbidden:<pat>`. -/
inductive Penalty where
  | missing : String → Penalty
  | missingAnyOf : List String → Penalty
  | forbidden : String → Penalty
deriving Repr, DecidableEq

/-- The violation scan (lines 183-192): missing required files, unmatched
any-of groups, and forbidden globs with at least one match. -/
def penaltiesOf (fs : FS) (e : Estructura) : List Penalty :=
  (e.required_files.filterMap fun p =>
    if fs.pathExists p then none else some (.missing p))
  ++ (e.required_any_of.filterMap fun group =>
    if group.any fs.pathExists then none else some (.missingAnyOf group))
  ++ (e.forbidden_globs.filterMap fun pat =>
    if (fs.glob pat).isEmpty then none else some (.forbidden pat))

/-- The mutable selection state of `run_scanner`: the `picked` list of
(source path, byte count) pairs and the running byte total `used`. -/
structure ScanState where
  picked : List (String × Int) := []
  used : Int := 0
deriving Repr, DecidableEq

/-- The closure `add_file(p, cap)` (lines 204-214): skip once the budget
is met, skip non-files, then take
`min(size, cap, max_total - used)` bytes if positive. -/
def add_file (fs : FS) (maxTotal : Int) (st : ScanState) (p : String)
    (cap : Int) : ScanState :=
  if st.used ≥ maxTotal then st
  else if ¬ fs.isfile p then st
  else
    let take := min (min (fs.size p : Int) cap) (maxTotal - st.used)
    if take ≤ 0 then st
    else { picked := st.picked ++ [(p, take)], used := st.used + take }

/-- Stable insertion keeping keys in descending order: an element is
placed after every element with a greater-or-equal key, so elements with
equal keys keep their relative order.  Together with `sortDesc` this
models Python's stable `sorted(..., key=..., reverse=True)`. -/
def insertDesc (key : String → Int) (x : String) :
    List String → List String
  | [] => [x]
  | y :: ys => if key y ≥ key x then y :: insertDesc key x ys else x :: y :: ys

/-- Stable descending sort by `key`, modelling
`sorted(..., key=..., reverse=True)` (line 222). -/
def sortDesc (key : String → Int) (l : List String) : List String :=
  l.foldl (fun acc x => insertDesc key x acc) []

/-- Python's slice `l[:k]` for an arbitrary integer `k` (line 223,
`matches[:takes]`): a negative bound counts from the end. -/
def pySliceTo (k : Int) (l : List String) : List String :=
  if 0 ≤ k then l.take k.toNat else l.take ((l.length : Int) + k).toNat

/-- The sort key of line 222:
`os.path.getsize(x) if os.path.isfile(x) else 0`. -/
def sizeKey (fs : FS) (x : String) : Int :=
  if fs.isfile x then (fs.size x : Int) else 0

/-- One iteration of `for rule in rules` (lines 216-224): expand the
rule's globs, deduplicate via `set` (iteration order given by `setOrder`),
sort by descending size, and feed the first `take` candidates to
`add_file`. -/
def processRule (fs : FS) (setOrder : List String → List String)
    (maxTotal : Int) (st : ScanState) (r : Rule) : ScanState :=
  let mlist := r.globs.foldl (fun acc g => acc ++ fs.glob g) []
  let ms := sortDesc (sizeKey fs) (setOrder mlist)
  (pySliceTo r.take ms).foldl
    (fun st m => add_file fs maxTotal st m r.max_bytes) st

/-- What `run_scanner` records in `scanner_meta.json`: the picked
(path, bytes) pairs, the cumulative byte count, and the violations. -/
structure ScanResult where
  picked : List (String × Int)
  bytes : Int
  penalties : List Penalty

/-- Embedding of `run_scanner(rubrica)` (lines 176-238), restricted to the
selection logic and metadata (the copying of file prefixes into
`submissions/` and the snippet concatenation carry no further decision
logic). -/
def run_scanner (fs : FS) (setOrder : List String → List String)
    (e : Estructura) : ScanResult :=
  let maxTotal := maxTotalOf e
  let final := (rulesOf e).foldl (processRule fs setOrder maxTotal) {}
  ⟨final.picked, final.used, penaltiesOf fs e⟩

/-- One concrete realization of `set(...)` iteration: first occurrences in
encounter order.  An actual CPython process may enumerate the set in a
different, hash-seed-dependent order; theorems that depend on the order
quantify over `setOrder` instead of fixing this one. -/
def pySetList (l : List String) : List String :=
  l.foldl (fun acc x => if x ∈ acc then acc else acc ++ [x]) []

/-! ## Ensemble consensus: `evaluate`, strategy `"C"`
(auto_evaluator.py lines 262-277)

Each oracle run contributes a parsed result; `r.get("criterios", [])` is a
list of criterion records.  The aggregation walks the runs in order,
appending `int(c.get("score", 0))` to `by_id[c["id"]]` and overwriting
`max_by_id[c["id"]]` with `int(c.get("max", 0))`; it then emits one
consensus criterion per accumulated id with the rounded mean score, and a
total that is the rounded sum of the consensus scores. -/

/-- A criterion record inside one oracle run; `none` models an absent key
read through `c.get(...)`. -/
structure Crit where
  id : String
  score : Option Int := none
  max : Option Int := none
deriving Repr, DecidableEq

/-- One oracle run's `criterios` list. -/
abbrev Run := List Crit

/-- Python `int(c.get("score", 0))`. -/
def scOf (c : Crit) : Int := c.score.getD 0

/-- Python `int(c.get("max", 0))`. -/
def mxOf (c : Crit) : Int := c.max.getD 0

/-- The two accumulator dictionaries of the consensus loop (lines
268-273), as insertion-ordered association lists. -/
structure CState where
  byId : List (String × List Int) := []
  maxById : List (String × Int) := []
deriving Repr, DecidableEq

/-- Python `by_id.setdefault(k, []).append(v)`: append to the entry in
place, or create it at the end. -/
def updAppend (l : List (String × List Int)) (k : String) (v : Int) :
    List (String × List Int) :=
  match l with
  | [] => [(k, [v])]
  | (k', vs) :: rest =>
    if k' == k then (k', vs ++ [v]) :: rest else (k', vs) :: updAppend rest k v

/-- Python `max_by_id[k] = v`: overwrite in place, or append. -/
def updSet (l : List (String × Int)) (k : String) (v : Int) :
    List (String × Int) :=
  match l with
  | [] => [(k, v)]
  | (k', v') :: rest =>
    if k' == k then (k', v) :: rest else (k', v') :: updSet rest k v

/-- Lookup in an `Int`-valued accumulator (Python
`max_by_id.get(cid, 0)` is `(lookupInt l cid).getD 0`). -/
def lookupInt (l : List (String × Int)) (k : String) : Option Int :=
  (l.find? (fun p => p.1 == k)).map (·.2)

/-- The body of the nested loop
`for r in runs: for c in r.get("criterios", [])` (lines 270-273). -/
def consStep (st : CState) (c : Crit) : CState :=
  { byId := updAppend st.byId c.id (scOf c),
    maxById := updSet st.maxById c.id (mxOf c) }

/-- The accumulator state after all runs (lines 268-273). -/
def consensusState (runs : List Run) : CState :=
  runs.foldl (fun st r => r.foldl consStep st) {}

/-- The arithmetic mean `sum(v)/len(v)`, as an exact rational. -/
def listMean (v : List Int) : ℚ := (v.sum : ℚ) / (v.length : ℚ)

/-- A consensus output criterion
`{"id": cid, "score": ..., "max": ..., "feedback": []}` (line 274). -/
structure OutCrit where
  id : String
  score : Int
  max : Int
  feedback : List String := []
deriving Repr, DecidableEq

/-- The normalized evaluation result `{"criterios": ..., "total": ...}`. -/
structure EvalRes where
  criterios : List OutCrit
  total : Int
deriving Repr, DecidableEq

/-- Embedding of the strategy-`"C"` aggregation of `evaluate` (lines
267-277), as a function of the list of parsed per-run oracle results:
per-id rounded mean score, `max` from the last occurrence of the id, and
the rounded sum of consensus scores as total. -/
def evaluateC (runs : List Run) : EvalRes :=
  let st := consensusState runs
  let criterios := st.byId.map fun p =>
    { id := p.1
      score := pyRound (listMean p.2)
      max := (lookupInt st.maxById p.1).getD 0
      feedback := [] }
  ⟨criterios, pyRound (((criterios.map (·.score)).sum : ℤ) : ℚ)⟩

/-! ### Characterization of the consensus accumulator

The accumulator state after a stream of criterion records is determined by
the ids in first-occurrence order (`keysOf`), the per-id score lists
(`scoresFor`), and the per-id last `max` (`lastMaxFor`). -/

/-- Ids of a criterion stream in order of first occurrence. -/
def keysOf (l : List Crit) : List String :=
  l.foldl (fun ks c => if c.id ∈ ks then ks else ks ++ [c.id]) []

/-- All scores reported for an id, in stream order. -/
def scoresFor (l : List Crit) (k : String) : List Int :=
  (l.filter (fun c => c.id == k)).map scOf

/-- The `max` of the last record reporting an id (0 if the id never
occurs, matching `max_by_id.get(cid, 0)`). -/
def lastMaxFor (l : List Crit) (k : String) : Int :=
  (((l.filter (fun c => c.id == k)).map mxOf).getLast?).getD 0

/-- The state reached by folding the flattened stream of criterion
records. -/
def streamState (l : List Crit) : CState :=
  l.foldl consStep {}

/-! ## `parse_json_from_text` (auto_evaluator.py lines 125-147)

Text is a list of characters.  The external `json.loads` parser is a
parameter `loads : List Char → Option α` (`none` models a raised
`JSONDecodeError`); the stripping, the fenced-block search
(`re.search(r"` ```json\s*(.*?)``` `", txt, re.S)`) and the brace-substring
extraction are embedded concretely. -/

/-- Python's `\s` character class (`re` on ASCII text;
`str.strip()` uses the same whitespace set). -/
def pyIsSpace (c : Char) : Bool :=
  c == ' ' || c == '\t' || c == '\n' || c == '\r' || c == '\x0b' || c == '\x0c'

/-- Python `txt.strip()`. -/
def pyStrip (l : List Char) : List Char :=
  ((l.dropWhile pyIsSpace).reverse.dropWhile pyIsSpace).reverse

/-- Position of the first occurrence of a literal ` ``` ` fence. -/
def findTicks : List Char → Option Nat
  | [] => none
  | l@(_ :: rest) =>
    if ['`', '`', '`'].isPrefixOf l then some 0
    else (findTicks rest).map (· + 1)

/-- The captured group of
`re.search(r"` ```json\s*(.*?)``` `", txt, re.S)`: the leftmost
` ```json ` marker that is followed, beyond the greedy whitespace run, by
a closing ` ``` `; the lazy group stops at the first closing fence.  (The
greedy `\s*` never needs to backtrack: a backtick is not whitespace, so no
closing fence can start strictly inside the whitespace run.) -/
def fencedBody : List Char → Option (List Char)
  | [] => none
  | l@(_ :: rest) =>
    if ("```json".toList).isPrefixOf l then
      let body0 := (l.drop 7).dropWhile pyIsSpace
      match findTicks body0 with
      | some m => some (body0.take m)
      | none => fencedBody rest
    else fencedBody rest

/-- The last-resort extraction (lines 140-144): the substring from the
first `\x7b` to the last `\x7d`, provided `txt.find("\x7b") >= 0` and
`txt.rfind("\x7d") > start`. -/
def braceSub (t : List Char) : Option (List Char) :=
  let start? := t.findIdx? (fun c => c == '\x7b')
  let stop? := (t.reverse.findIdx? (fun c => c == '\x7d')).map
    (fun j => t.length - 1 - j)
  match start?, stop? with
  | some s, some e => if s < e then some ((t.drop s).take (e - s + 1)) else none
  | _, _ => none

/-- Embedding of `parse_json_from_text(txt)` (lines 125-147): strict parse
of the stripped text, then the fenced-block body, then the brace
substring; `none` models the final `raise ValueError`. -/
def parse_json_from_text {α : Type} (loads : List Char → Option α)
    (txt : List Char) : Option α :=
  let t := pyStrip txt
  match loads t with
  | some j => some j
  | none =>
    match (fencedBody t).bind loads with
    | some j => some j
    | none => (braceSub t).bind loads

/-! ## Threshold post-processing in `main` (lines 357-373)

After `evaluate` returns, `main` reads the oracle result defensively:
`total = int(data.get("total", sum(int(c.get("score", 0)) ...)))`,
`peso_total = int(merged.get("peso_total", sum(int(c.get("max",
c.get("peso", 0))) ...)))`,
`umbral = int(merged.get("umbrales", {}).get("aprobar",
int(0.6 * peso_total)))`, and reports APROBADO iff `total >= umbral`
(line 373). -/

/-- A criterion record as read by `main`'s post-processing; `none` models
an absent key. -/
structure MCrit where
  id : String := ""
  score : Option Int := none
  max : Option Int := none
  peso : Option Int := none
deriving Repr, DecidableEq

/-- Line 358: the reported total, defaulting to the sum of per-criterion
scores when the oracle omitted `"total"`. -/
def mainTotal (cs : List MCrit) (tot : Option Int) : Int :=
  tot.getD ((cs.map (fun c => c.score.getD 0)).sum)

/-- Line 359: `peso_total`, defaulting to the summed per-criterion `max`
(falling back to `peso`) when the merged rubric omitted it. -/
def mainPesoTotal (mergedPesoTotal : Option Int) (cs : List MCrit) : Int :=
  mergedPesoTotal.getD ((cs.map (fun c => c.max.getD (c.peso.getD 0))).sum)

/-- Python `int(0.6 * peso_total)` as exact arithmetic: truncation of
three fifths.  (For every operand this program can meet — in particular
`peso_total = 100`, where the double product is exactly `60.0` — the
floating-point expression agrees with this exact value.) -/
def defaultUmbral (pt : Int) : Int :=
  pyTrunc ((3 : ℚ) / 5 * (pt : ℚ))

/-- Line 360: the passing threshold `umbral`, from
`merged["umbrales"]["aprobar"]` when configured, else 60% of
`peso_total`. -/
def mainUmbral (aprobar : Option Int) (pt : Int) : Int :=
  aprobar.getD (defaultUmbral pt)

/-- Line 373: the run is reported `APROBADO` iff `total >= umbral`. -/
def mainPasses (cs : List MCrit) (tot mergedPesoTotal aprobar : Option Int) :
    Bool :=
  mainTotal cs tot ≥ mainUmbral aprobar (mainPesoTotal mergedPesoTotal cs)

/-! ## Concrete scenarios used by the claim theorems -/

/-- The module layer of the end-to-end merge scenario:
`{criterios: [{id: "a", peso: 10, tipo: "determinista"}]}`. -/
def moduleDoc : Yaml :=
  .dict [("criterios", .list [
    .dict [("id", .s "a"), ("peso", .i 10), ("tipo", .s "determinista")]])]

/-- The global layer of the end-to-end merge scenario:
`{criterios: [{id: "a", peso: 5, tipo: "ia"},
{id: "b", peso: 5, tipo: "ia"}], peso_total: 10}`. -/
def globalDoc : Yaml :=
  .dict [("criterios", .list [
    .dict [("id", .s "a"), ("peso", .i 5), ("tipo", .s "ia")],
    .dict [("id", .s "b"), ("peso", .i 5), ("tipo", .s "ia")]]),
   ("peso_total", .i 10)]

/-- A snapshot with a single 5-byte file `x.md`, matched by the literal
pattern `x.md` and by the glob `*.md`. -/
def fsTwoRules : FS :=
  { glob := fun g =>
      if g == "x.md" then ["x.md"] else if g == "*.md" then ["x.md"] else []
    isfile := fun p => p == "x.md"
    size := fun p => if p == "x.md" then 5 else 0
    pathExists := fun _ => false }

/-- Two pick rules whose globs both match `x.md`. -/
def eTwoRules : Estructura :=
  { pick_rules := some [⟨["x.md"], 1, 10⟩, ⟨["*.md"], 1, 10⟩]
    max_context_bytes := some 100 }

/-- An empty snapshot: no files, no glob matches. -/
def fsEmpty : FS :=
  ⟨fun _ => [], fun _ => false, fun _ => 0, fun _ => false⟩

/-- Structural constraints carrying a negative `max_context_bytes`. -/
def eNegBudget : Estructura :=
  { pick_rules := some [⟨["*"], 1, 10⟩], max_context_bytes := some (-1) }

/-- A snapshot with two 10-byte files `a.css` and `b.css`, both matching
`*.css`. -/
def fsTie : FS :=
  { glob := fun g => if g == "*.css" then ["a.css", "b.css"] else []
    isfile := fun p => p == "a.css" || p == "b.css"
    size := fun _ => 10
    pathExists := fun _ => false }

/-- One rule taking a single `*.css` file, with ample budget. -/
def eTie : Estructura :=
  { pick_rules := some [⟨["*.css"], 1, 100⟩], max_context_bytes := some 1000 }

/-- Another legitimate `set(...)` enumeration: distinct elements in
reversed encounter order (a hash-seed-dependent CPython process may
produce exactly this order). -/
def revSetList (l : List String) : List String :=
  (pySetList l).reverse

/-- The three-run ensemble scenario: criterion `"c1"` scored 2, 3 and 4
with `max` 5 in each run. -/
def exRuns3 : List Run :=
  [[⟨"c1", some 2, some 5⟩], [⟨"c1", some 3, some 5⟩], [⟨"c1", some 4, some 5⟩]]

/-- Two runs that agree on the score of `"c1"` but report different
`max` values. -/
def runsMaxFirst : List Run :=
  [[⟨"c1", some 2, some 5⟩], [⟨"c1", some 2, some 7⟩]]

/-- The same two runs in the opposite order. -/
def runsMaxSecond : List Run :=
  [[⟨"c1", some 2, some 7⟩], [⟨"c1", some 2, some 5⟩]]

/-- A toy `json.loads`: accepts exactly the two-character text
`\x7b\x7d` (an empty JSON object) and rejects everything else. -/
def demoLoads : List Char → Option Nat :=
  fun s => if s = ("\x7b\x7d").toList then some 0 else none

/-- An oracle reply that is plain prose: no braces, no fenced block, not
JSON. -/
def demoProse : List Char :=
  ("the submission looks fine to me, good job overall").toList

end AutoEval

namespace AutoEval

/-! ## Helper lemmas -/

theorem ratFloor_eq_intFloor (q : ℚ) : q.floor = ⌊q⌋ := by
  rw [Rat.floor_def, Rat.floor_def']

theorem pyRound_intCast (m : ℤ) : pyRound (m : ℚ) = m := by
  simp [pyRound, ratFloor_eq_intFloor]

/-! ## Claim theorems -/

/-- C1.  Folding the two-layer chain `[module, global]` as `main` folds it
does NOT give the claimed result: on the shared id `"a"` the GLOBAL
layer's scalar fields survive (`peso = 5`, `tipo = "ia"`), because
`deep_merge` returns its base operand at scalar leaves (line 91), so the
most specific layer never overrides a scalar that the less specific layer
also defines.  Only the union of ids and `peso_total = 10` match the
claim.  This theorem evaluates the embedded code on the claim's exact
chain, exhibiting the divergence. -/
theorem C1_chain_merge_keeps_global_scalars :
    mainFold [moduleDoc, globalDoc] =
      .dict [("criterios", .list [
        .dict [("id", .s "a"), ("peso", .i 5), ("tipo", .s "ia")],
        .dict [("id", .s "b"), ("peso", .i 5), ("tipo", .s "ia")]]),
       ("peso_total", .i 10)] := by
  simp [mainFold, moduleDoc, globalDoc, deep_merge, mergeEntries, mergeIdx,
    buildIdx, alookup, setAssoc, setIdx, idxLookup, isReplaceDirective,
    stripOp, allIdDicts, yamlBEq]

/-- C2.  On a type mismatch or scalar operands, `deep_merge(a, b)` returns
the BASE value `a`, not the overlay `b` as claimed: line 91 is
`return a`.  Evaluations at three failing inputs: two scalars, a scalar
against a sequence, and a sequence against a mapping. -/
theorem C2_scalar_merge_returns_base :
    deep_merge (.i 1) (.i 2) = .i 1
    ∧ deep_merge (.s "x") (.list []) = .s "x"
    ∧ deep_merge (.list [.i 1]) (.dict []) = .list [.i 1] := by
  refine ⟨?_, ?_, ?_⟩ <;> simp [deep_merge]

/-- C9.  Deduplication happens only within a pick rule: with two rules
whose globs both match the 5-byte file `x.md`, the picked list contains
the path twice and each occurrence charges its bytes against the
budget (cumulative total 10). -/
theorem C9_cross_rule_duplicate_pick :
    (run_scanner fsTwoRules pySetList eTwoRules).picked =
      [("x.md", 5), ("x.md", 5)]
    ∧ (run_scanner fsTwoRules pySetList eTwoRules).bytes = 10 := by
  decide

/-- C7.  The picked list is NOT a function of the snapshot and rule list
alone: with two equal-size files matching one rule of `take = 1`, two
legitimate enumerations of `set(matches)` (both permutations of the same
distinct matches, as produced by differently hash-seeded processes) make
the stable descending sort, and hence the pick, differ. -/
theorem C7_tie_order_depends_on_set_order :
    (run_scanner fsTie pySetList eTie).picked = [("a.css", 10)]
    ∧ (run_scanner fsTie revSetList eTie).picked = [("b.css", 10)]
    ∧ (pySetList (fsTie.glob "*.css")).Perm (revSetList (fsTie.glob "*.css"))
    ∧ (pySetList (fsTie.glob "*.css")).Nodup
    ∧ (revSetList (fsTie.glob "*.css")).Nodup := by
  refine ⟨by decide, by decide, ?_, by decide, by decide⟩
  show (["a.css", "b.css"] : List String).Perm ["b.css", "a.css"]
  exact List.Perm.swap _ _ _

/-- C5.  `parse_json_from_text` tries, in order, a strict parse of the
stripped text, the body of a fenced JSON block, and the first-to-last
brace substring; it returns the first success, and returns the raising
branch exactly when all three attempts fail.  On a plain-prose reply
(no JSON anywhere) it raises, even under a parser that accepts some
texts. -/
theorem C5_parse_order_and_failure :
    (∀ (α : Type) (loads : List Char → Option α) (txt : List Char),
      (parse_json_from_text loads txt =
        ((loads (pyStrip txt)).orElse fun _ =>
          (((fencedBody (pyStrip txt)).bind loads).orElse fun _ =>
            (braceSub (pyStrip txt)).bind loads)))
      ∧ (parse_json_from_text loads txt = none ↔
          (loads (pyStrip txt) = none
            ∧ (fencedBody (pyStrip txt)).bind loads = none
            ∧ (braceSub (pyStrip txt)).bind loads = none)))
    ∧ parse_json_from_text demoLoads demoProse = none := by
  constructor
  · intro α loads txt
    constructor
    · unfold parse_json_from_text
      cases h1 : loads (pyStrip txt) <;>
        cases h2 : (fencedBody (pyStrip txt)).bind loads <;>
          simp [h1, h2, Option.orElse]
    · unfold parse_json_from_text
      cases h1 : loads (pyStrip txt) <;>
        cases h2 : (fencedBody (pyStrip txt)).bind loads <;>
          simp [h1, h2]
  · decide

/-- C6.  The run is reported as passing (`APROBADO`) iff
`total >= umbral`; `umbral` is the configured `umbrales.aprobar` when
present, else the truncation of 60% of `peso_total`; with
`peso_total = 100` and no configured threshold the cutoff is exactly 60;
and when the oracle omits `"total"`, the reported total is the sum of the
per-criterion scores. -/
theorem C6_threshold_semantics :
    ∀ (cs : List MCrit) (tot mergedPesoTotal aprobar : Option Int),
      (mainPasses cs tot mergedPesoTotal aprobar = true ↔
        mainUmbral aprobar (mainPesoTotal mergedPesoTotal cs) ≤
          mainTotal cs tot)
      ∧ (∀ a, mainUmbral (some a) (mainPesoTotal mergedPesoTotal cs) = a)
      ∧ mainUmbral none (mainPesoTotal (some 100) cs) = 60
      ∧ mainTotal cs none = (cs.map (fun c => c.score.getD 0)).sum
      ∧ (mainPasses cs tot (some 100) none = true ↔
          60 ≤ mainTotal cs tot) := by
  intro cs tot mergedPesoTotal aprobar
  have humbral : mainUmbral none (mainPesoTotal (some 100) cs) = 60 := by
    simp only [mainUmbral, mainPesoTotal, Option.getD_some, Option.getD_none,
      defaultUmbral, pyTrunc, ratFloor_eq_intFloor]
    norm_num
  refine ⟨by simp [mainPasses, ge_iff_le], by intro a; simp [mainUmbral],
    humbral, rfl, ?_⟩
  simp [mainPasses, ge_iff_le, humbral]

/-! ### Scanner budget invariant (C3) -/

theorem foldl_inv {α β : Type} {P : α → Prop} (f : α → β → α)
    (hf : ∀ s x, P s → P (f s x)) :
    ∀ (l : List β) (s : α), P s → P (l.foldl f s) := by
  intro l
  induction l with
  | nil => exact fun s hs => hs
  | cons x xs ih => exact fun s hs => ih _ (hf _ _ hs)

/-- The selection-state invariant: the running total is nonnegative, at
most the budget, and equal to the sum of the picked byte counts. -/
def ScanInv (maxTotal : Int) (st : ScanState) : Prop :=
  0 ≤ st.used ∧ st.used ≤ maxTotal ∧ st.used = (st.picked.map (·.2)).sum

theorem add_file_inv (fs : FS) (maxTotal : Int) (st : ScanState)
    (p : String) (cap : Int) (h : ScanInv maxTotal st) :
    ScanInv maxTotal (add_file fs maxTotal st p cap) := by
  obtain ⟨h0, h1, h2⟩ := h
  have hrem : min (min (fs.size p : Int) cap) (maxTotal - st.used) ≤
      maxTotal - st.used := min_le_right _ _
  simp only [add_file, ScanInv]
  split_ifs with hge hfile hle <;> try exact ⟨h0, h1, h2⟩
  dsimp only
  refine ⟨by omega, by omega, ?_⟩
  simp only [List.map_append, List.sum_append, List.map_cons, List.map_nil,
    List.sum_cons, List.sum_nil, add_zero]
  rw [h2]

theorem processRule_inv (fs : FS) (setOrder : List String → List String)
    (maxTotal : Int) (st : ScanState) (r : Rule)
    (h : ScanInv maxTotal st) :
    ScanInv maxTotal (processRule fs setOrder maxTotal st r) := by
  simp only [processRule]
  exact foldl_inv _ (fun s x hs => add_file_inv fs maxTotal s x r.max_bytes hs)
    _ _ h

/-- C3, amended.  For every snapshot, every set enumeration and every
structural-constraints value whose `max_context_bytes` is nonnegative,
the scan's cumulative byte count stays within the budget and equals the
sum of the per-file byte counts of the picked list.  (The nonnegativity
proviso is forced by `C3_negative_budget_cex`: with a negative budget the
scanner still reports 0 bytes, exceeding the budget.) -/
theorem C3_budget_invariant (fs : FS) (setOrder : List String → List String)
    (e : Estructura) (h : 0 ≤ maxTotalOf e) :
    (run_scanner fs setOrder e).bytes ≤ maxTotalOf e
    ∧ (run_scanner fs setOrder e).bytes =
        ((run_scanner fs setOrder e).picked.map (·.2)).sum := by
  have hinv : ScanInv (maxTotalOf e)
      ((rulesOf e).foldl (processRule fs setOrder (maxTotalOf e)) {}) :=
    foldl_inv _ (fun s x hs => processRule_inv fs setOrder (maxTotalOf e) s x hs)
      _ _ ⟨le_refl 0, h, rfl⟩
  exact ⟨hinv.2.1, hinv.2.2⟩

/-- C3, counterexample.  With `max_context_bytes = -1` and no matching
file, the scan reports 0 selected bytes, which exceeds the (negative)
budget, refuting the claim for arbitrary structural-constraints values. -/
theorem C3_negative_budget_cex :
    ¬ ((run_scanner fsEmpty pySetList eNegBudget).bytes ≤
        maxTotalOf eNegBudget) := by
  decide

/-- C3, witness: the amended theorem applied to the default structural
constraints (budget 120000) over the empty snapshot. -/
theorem C3_budget_witness :
    (run_scanner fsEmpty pySetList {}).bytes ≤ maxTotalOf {}
    ∧ (run_scanner fsEmpty pySetList {}).bytes =
        ((run_scanner fsEmpty pySetList {}).picked.map (·.2)).sum :=
  C3_budget_invariant fsEmpty pySetList {} (by decide)

/-! ### Characterizing the consensus accumulator (C4, C8, C10) -/

theorem updAppend_map_mem (ks : List String) (g : String → List Int)
    (k0 : String) (v : Int) (hnd : ks.Nodup) (hmem : k0 ∈ ks) :
    updAppend (ks.map fun k => (k, g k)) k0 v =
      ks.map fun k => (k, if k = k0 then g k ++ [v] else g k) := by
  induction ks with
  | nil => cases hmem
  | cons a ks ih =>
    simp only [List.map_cons, updAppend]
    by_cases ha : a = k0
    · subst ha
      have hnot : ∀ k ∈ ks, ¬(k = a) := fun k hk he =>
        (List.nodup_cons.mp hnd).1 (he ▸ hk)
      have htail : List.map (fun k => ((k : String),
          if k = a then g k ++ [v] else g k)) ks =
          List.map (fun k => (k, g k)) ks :=
        List.map_congr_left fun k hk => by rw [if_neg (hnot k hk)]
      simp [htail]
    · have hb : (a == k0) = false := by simp [ha]
      rw [hb]
      simp only [Bool.false_eq_true, if_false, if_neg ha]
      rw [ih (List.nodup_cons.mp hnd).2
        ((List.mem_cons.mp hmem).resolve_left fun h => ha h.symm)]

theorem updAppend_map_notmem (ks : List String) (g : String → List Int)
    (k0 : String) (v : Int) (hmem : k0 ∉ ks) :
    updAppend (ks.map fun k => (k, g k)) k0 v =
      (ks.map fun k => (k, g k)) ++ [(k0, [v])] := by
  induction ks with
  | nil => rfl
  | cons a ks ih =>
    have ha : ¬(a = k0) := fun h => hmem (h ▸ List.mem_cons_self a ks)
    have hb : (a == k0) = false := by simp [ha]
    simp only [List.map_cons, updAppend, hb, Bool.false_eq_true, if_false,
      List.cons_append]
    rw [ih fun h => hmem (List.mem_cons_of_mem a h)]

theorem updSet_map_mem (ks : List String) (g : String → Int)
    (k0 : String) (v : Int) (hnd : ks.Nodup) (hmem : k0 ∈ ks) :
    updSet (ks.map fun k => (k, g k)) k0 v =
      ks.map fun k => (k, if k = k0 then v else g k) := by
  induction ks with
  | nil => cases hmem
  | cons a ks ih =>
    simp only [List.map_cons, updSet]
    by_cases ha : a = k0
    · subst ha
      have hnot : ∀ k ∈ ks, ¬(k = a) := fun k hk he =>
        (List.nodup_cons.mp hnd).1 (he ▸ hk)
      have htail : List.map (fun k => ((k : String),
          if k = a then v else g k)) ks =
          List.map (fun k => (k, g k)) ks :=
        List.map_congr_left fun k hk => by rw [if_neg (hnot k hk)]
      simp [htail]
    · have hb : (a == k0) = false := by simp [ha]
      rw [hb]
      simp only [Bool.false_eq_true, if_false, if_neg ha]
      rw [ih (List.nodup_cons.mp hnd).2
        ((List.mem_cons.mp hmem).resolve_left fun h => ha h.symm)]

theorem updSet_map_notmem (ks : List String) (g : String → Int)
    (k0 : String) (v : Int) (hmem : k0 ∉ ks) :
    updSet (ks.map fun k => (k, g k)) k0 v =
      (ks.map fun k => (k, g k)) ++ [(k0, v)] := by
  induction ks with
  | nil => rfl
  | cons a ks ih =>
    have ha : ¬(a = k0) := fun h => hmem (h ▸ List.mem_cons_self a ks)
    have hb : (a == k0) = false := by simp [ha]
    simp only [List.map_cons, updSet, hb, Bool.false_eq_true, if_false,
      List.cons_append]
    rw [ih fun h => hmem (List.mem_cons_of_mem a h)]

theorem lookupInt_map (ks : List String) (g : String → Int) (k0 : String) :
    lookupInt (ks.map fun k => (k, g k)) k0 =
      if k0 ∈ ks then some (g k0) else none := by
  induction ks with
  | nil => rfl
  | cons a ks ih =>
    by_cases ha : a = k0
    · subst ha
      simp [lookupInt, List.find?_cons]
    · have hb : ¬(((a, g a).1 == k0) = true) := by simp [ha]
      have hmem : (k0 ∈ a :: ks) ↔ (k0 ∈ ks) :=
        ⟨fun h => (List.mem_cons.mp h).resolve_left fun h' => ha h'.symm,
         List.mem_cons_of_mem a⟩
      simp only [lookupInt, List.map_cons] at ih ⊢
      rw [List.find?_cons_of_neg (p := fun q : String × Int => q.1 == k0) _ hb,
        if_congr hmem rfl rfl]
      exact ih

theorem mem_keysOf_aux (x : String) :
    ∀ (l : List Crit) (acc : List String),
      (x ∈ l.foldl (fun ks c => if c.id ∈ ks then ks else ks ++ [c.id]) acc ↔
        x ∈ acc ∨ x ∈ l.map (·.id)) := by
  intro l
  induction l with
  | nil => intro acc; simp
  | cons c l ih =>
    intro acc
    rw [List.foldl_cons, ih, List.map_cons, List.mem_cons]
    by_cases hc : c.id ∈ acc
    · rw [if_pos hc]
      constructor
      · rintro (h | h)
        · exact Or.inl h
        · exact Or.inr (Or.inr h)
      · rintro (h | h | h)
        · exact Or.inl h
        · exact Or.inl (h ▸ hc)
        · exact Or.inr h
    · rw [if_neg hc, List.mem_append, List.mem_singleton]
      constructor
      · rintro ((h | h) | h)
        · exact Or.inl h
        · exact Or.inr (Or.inl h)
        · exact Or.inr (Or.inr h)
      · rintro (h | h | h)
        · exact Or.inl (Or.inl h)
        · exact Or.inl (Or.inr h)
        · exact Or.inr h

theorem mem_keysOf (x : String) (l : List Crit) :
    x ∈ keysOf l ↔ x ∈ l.map (·.id) := by
  rw [keysOf, mem_keysOf_aux]
  simp

theorem keysOf_nodup_aux :
    ∀ (l : List Crit) (acc : List String), acc.Nodup →
      (l.foldl (fun ks c => if c.id ∈ ks then ks else ks ++ [c.id]) acc).Nodup := by
  intro l
  induction l with
  | nil => intro acc h; exact h
  | cons c l ih =>
    intro acc h
    rw [List.foldl_cons]
    by_cases hc : c.id ∈ acc
    · rw [if_pos hc]; exact ih acc h
    · rw [if_neg hc]
      exact ih _ (by simp [List.nodup_append, h, hc])

theorem keysOf_nodup (l : List Crit) : (keysOf l).Nodup :=
  keysOf_nodup_aux l [] List.nodup_nil

theorem keysOf_append_singleton (l : List Crit) (c : Crit) :
    keysOf (l ++ [c]) =
      if c.id ∈ keysOf l then keysOf l else keysOf l ++ [c.id] := by
  rw [keysOf, List.foldl_append]
  rfl

theorem scoresFor_append_singleton (l : List Crit) (c : Crit) (k : String) :
    scoresFor (l ++ [c]) k =
      scoresFor l k ++ (if c.id = k then [scOf c] else []) := by
  by_cases h : c.id = k <;>
    simp [scoresFor, List.filter_append, h]

theorem lastMaxFor_append_singleton (l : List Crit) (c : Crit) (k : String) :
    lastMaxFor (l ++ [c]) k =
      if c.id = k then mxOf c else lastMaxFor l k := by
  by_cases h : c.id = k
  · simp [lastMaxFor, List.filter_append, h, List.getLast?_concat]
  · simp [lastMaxFor, List.filter_append, h]

theorem streamState_append_singleton (l : List Crit) (c : Crit) :
    streamState (l ++ [c]) = consStep (streamState l) c := by
  rw [streamState, List.foldl_append]
  rfl

theorem scoresFor_eq_nil_of_notmem (l : List Crit) (k : String)
    (h : k ∉ l.map (·.id)) : scoresFor l k = [] := by
  have : l.filter (fun c => c.id == k) = [] := by
    rw [List.filter_eq_nil_iff]
    intro c hc hck
    exact h (List.mem_map.mpr ⟨c, hc, by simpa using hck⟩)
  simp [scoresFor, this]

/-- The consensus accumulator, characterized: after any stream of
criterion records, `by_id` maps each id (in first-occurrence order) to its
score list, and `max_by_id` maps it to the last reported `max`. -/
theorem streamState_char (l : List Crit) :
    (streamState l).byId = (keysOf l).map (fun k => (k, scoresFor l k))
    ∧ (streamState l).maxById =
        (keysOf l).map (fun k => (k, lastMaxFor l k)) := by
  induction l using List.reverseRecOn with
  | nil => constructor <;> rfl
  | append_singleton l c ih =>
    obtain ⟨ih1, ih2⟩ := ih
    rw [streamState_append_singleton, keysOf_append_singleton]
    by_cases hmem : c.id ∈ keysOf l
    · rw [if_pos hmem]
      constructor
      · show updAppend (streamState l).byId c.id (scOf c) = _
        rw [ih1, updAppend_map_mem _ _ _ _ (keysOf_nodup l) hmem]
        refine List.map_congr_left fun k hk => ?_
        rw [scoresFor_append_singleton]
        by_cases hkc : k = c.id
        · rw [if_pos hkc, if_pos hkc.symm]
        · rw [if_neg hkc, if_neg (fun h => hkc h.symm), List.append_nil]
      · show updSet (streamState l).maxById c.id (mxOf c) = _
        rw [ih2, updSet_map_mem _ _ _ _ (keysOf_nodup l) hmem]
        refine List.map_congr_left fun k hk => ?_
        rw [lastMaxFor_append_singleton]
        by_cases hkc : k = c.id
        · rw [if_pos hkc, if_pos hkc.symm]
        · rw [if_neg hkc, if_neg (fun h => hkc h.symm)]
    · rw [if_neg hmem]
      have hnotid : c.id ∉ l.map (·.id) := fun h => hmem ((mem_keysOf _ _).mpr h)
      constructor
      · show updAppend (streamState l).byId c.id (scOf c) = _
        rw [ih1, updAppend_map_notmem _ _ _ _ hmem, List.map_append]
        congr 1
        · refine List.map_congr_left fun k hk => ?_
          rw [scoresFor_append_singleton,
            if_neg (fun h : c.id = k => hmem (h ▸ hk)), List.append_nil]
        · rw [List.map_singleton, scoresFor_append_singleton,
            scoresFor_eq_nil_of_notmem l c.id hnotid, if_pos rfl,
            List.nil_append]
      · show updSet (streamState l).maxById c.id (mxOf c) = _
        rw [ih2, updSet_map_notmem _ _ _ _ hmem, List.map_append]
        congr 1
        · refine List.map_congr_left fun k hk => ?_
          rw [lastMaxFor_append_singleton,
            if_neg (fun h : c.id = k => hmem (h ▸ hk))]
        · rw [List.map_singleton, lastMaxFor_append_singleton, if_pos rfl]

/-- The nested fold of `consensusState` is the fold of the flattened
record stream. -/
theorem consensusState_eq_stream (runs : List Run) :
    consensusState runs = streamState runs.flatten :=
  (List.foldl_flatten _ _ _).symm

/-- The consensus output, characterized: one criterion per id in
first-occurrence order, scored by the rounded mean of that id's reported
scores, with the last reported `max`. -/
theorem evaluateC_criterios_char (runs : List Run) :
    (evaluateC runs).criterios =
      (keysOf runs.flatten).map fun k =>
        ⟨k, pyRound (listMean (scoresFor runs.flatten k)),
         lastMaxFor runs.flatten k, []⟩ := by
  have h1 := (streamState_char runs.flatten).1
  have h2 := (streamState_char runs.flatten).2
  show ((consensusState runs).byId.map _) = _
  rw [consensusState_eq_stream, h1, h2, List.map_map]
  refine List.map_congr_left fun k hk => ?_
  show OutCrit.mk k _ _ [] = _
  rw [lookupInt_map, if_pos hk]
  rfl

theorem evaluateC_total_char (runs : List Run) :
    (evaluateC runs).total =
      ((evaluateC runs).criterios.map (·.score)).sum := by
  show pyRound _ = _
  rw [pyRound_intCast]
  rfl

theorem scoresFor_mem_ne_nil (runs : List Run) (p : String × List Int)
    (hp : p ∈ (consensusState runs).byId) : p.2 ≠ [] := by
  rw [consensusState_eq_stream, (streamState_char runs.flatten).1] at hp
  obtain ⟨k, hk, he⟩ := List.mem_map.mp hp
  subst he
  intro hnil
  obtain ⟨c, hc, hcid⟩ :=
    List.mem_map.mp ((mem_keysOf k runs.flatten).mp hk)
  have : c ∈ runs.flatten.filter (fun c => c.id == k) :=
    List.mem_filter.mpr ⟨hc, by simpa using hcid⟩
  simp only [scoresFor] at hnil
  rw [List.map_eq_nil_iff.mp hnil] at this
  cases this

/-- C10.  With an empty run list (ensemble size 0) the consensus result is
`{criterios: [], total: 0}` without any oracle interaction, and for every
run list each accumulator entry holds at least one score, so the mean's
divisor `len(v)` is never zero. -/
theorem C10_empty_ensemble_and_no_div_by_zero :
    evaluateC ([] : List Run) = ⟨[], 0⟩
    ∧ ∀ (runs : List Run), ∀ p ∈ (consensusState runs).byId,
        1 ≤ p.2.length := by
  constructor
  · have h0 : pyRound ((0 : ℤ) : ℚ) = 0 := pyRound_intCast 0
    simp only [Int.cast_zero] at h0
    simp [evaluateC, consensusState, h0]
  · intro runs p hp
    have := scoresFor_mem_ne_nil runs p hp
    cases h : p.2 with
    | nil => exact absurd h this
    | cons a l => simp [h]

/-- C10, witness: in the three-run scenario the accumulator entry for
`"c1"` holds the three scores, a list of length 3 ≥ 1. -/
theorem C10_witness :
    ("c1", [2, 3, 4]) ∈ (consensusState exRuns3).byId
    ∧ 1 ≤ ([2, 3, 4] : List Int).length :=
  ⟨by decide,
   C10_empty_ensemble_and_no_div_by_zero.2 exRuns3 ("c1", [2, 3, 4])
     (by decide)⟩

/-- C4.  Under the ensemble-consensus strategy, every emitted criterion
is scored by the rounded arithmetic mean of the scores of exactly those
run records that reported its id (records omitting the id contribute
nothing), its `max` is the last reported `max` for that id, the total is
the sum of the consensus scores, and every id reported by at least one
run is emitted; in the concrete 3-run scenario with scores `[2, 3, 4]`
and `max` 5, the consensus is score 3, `max` 5, total 3. -/
theorem C4_consensus_semantics :
    (∀ (runs : List Run), ∀ c ∈ (evaluateC runs).criterios,
      c.score = pyRound (listMean (scoresFor runs.flatten c.id))
      ∧ c.max = lastMaxFor runs.flatten c.id)
    ∧ (∀ (runs : List Run) (i : String), i ∈ runs.flatten.map (·.id) →
        ∃ c ∈ (evaluateC runs).criterios, c.id = i)
    ∧ (∀ runs : List Run, (evaluateC runs).total =
        ((evaluateC runs).criterios.map (·.score)).sum)
    ∧ evaluateC exRuns3 = ⟨[⟨"c1", 3, 5, []⟩], 3⟩ := by
  refine ⟨?_, ?_, evaluateC_total_char, ?_⟩
  · intro runs c hc
    rw [evaluateC_criterios_char] at hc
    obtain ⟨k, hk, he⟩ := List.mem_map.mp hc
    subst he
    exact ⟨rfl, rfl⟩
  · intro runs i hi
    refine ⟨⟨i, pyRound (listMean (scoresFor runs.flatten i)),
      lastMaxFor runs.flatten i, []⟩, ?_, rfl⟩
    rw [evaluateC_criterios_char]
    exact List.mem_map.mpr ⟨i, (mem_keysOf i runs.flatten).mpr hi, rfl⟩
  · simp only [evaluateC, consensusState, consStep, updAppend, updSet,
      lookupInt, scOf, mxOf, listMean, exRuns3, List.foldl, List.map,
      List.find?, List.sum, pyRound, ratFloor_eq_intFloor]
    norm_num

/-- C4, witness: the general per-criterion characterization applied to
the concrete 3-run scenario at its consensus criterion. -/
theorem C4_witness :
    (⟨"c1", 3, 5, []⟩ : OutCrit) ∈ (evaluateC exRuns3).criterios
    ∧ (3 : ℤ) = pyRound (listMean (scoresFor exRuns3.flatten "c1"))
    ∧ (5 : ℤ) = lastMaxFor exRuns3.flatten "c1" := by
  have he : evaluateC exRuns3 = ⟨[⟨"c1", 3, 5, []⟩], 3⟩ :=
    C4_consensus_semantics.2.2.2
  have hmem : (⟨"c1", 3, 5, []⟩ : OutCrit) ∈ (evaluateC exRuns3).criterios := by
    rw [he]; exact List.mem_singleton_self _
  have h := C4_consensus_semantics.1 exRuns3 _ hmem
  exact ⟨hmem, h.1, h.2⟩

/-! ### Permutation invariance of the consensus (C8) -/

theorem flatten_perm {α : Type} {l1 l2 : List (List α)} (h : l1.Perm l2) :
    l1.flatten.Perm l2.flatten := by
  induction h with
  | nil => exact List.Perm.refl _
  | cons x h ih => simpa using ih.append_left x
  | swap x y l =>
    simp only [List.flatten_cons]
    rw [← List.append_assoc, ← List.append_assoc]
    exact List.perm_append_comm.append_right _
  | trans h1 h2 ih1 ih2 => exact ih1.trans ih2

theorem find?_beq_self (ks : List String) (i : String) :
    ks.find? (fun k => k == i) = if i ∈ ks then some i else none := by
  induction ks with
  | nil => rfl
  | cons a ks ih =>
    by_cases ha : a = i
    · subst ha; simp
    · have hb : ¬((fun k => k == i) a = true) := by simp [ha]
      have hmem : (i ∈ ks) ↔ (i ∈ a :: ks) :=
        ⟨List.mem_cons_of_mem a,
         fun hh => (List.mem_cons.mp hh).resolve_left fun h' => ha h'.symm⟩
      rw [List.find?_cons_of_neg (p := fun k : String => k == i) _ hb, ih,
        if_congr hmem rfl rfl]

theorem find?_criterios (runs : List Run) (i : String) :
    (evaluateC runs).criterios.find? (fun c => c.id == i) =
      if i ∈ keysOf runs.flatten then
        some ⟨i, pyRound (listMean (scoresFor runs.flatten i)),
          lastMaxFor runs.flatten i, []⟩
      else none := by
  rw [evaluateC_criterios_char, List.find?_map]
  have hp : ((fun c : OutCrit => c.id == i) ∘ fun k =>
      (⟨k, pyRound (listMean (scoresFor runs.flatten k)),
        lastMaxFor runs.flatten k, []⟩ : OutCrit)) = fun k => k == i := rfl
  rw [hp, find?_beq_self]
  by_cases h : i ∈ keysOf runs.flatten
  · rw [if_pos h, if_pos h]
    rfl
  · rw [if_neg h, if_neg h]
    rfl

theorem listMean_perm {v1 v2 : List Int} (h : v1.Perm v2) :
    listMean v1 = listMean v2 := by
  unfold listMean
  rw [h.sum_eq, h.length_eq]

/-- C8, amended.  Aggregation is permutation-invariant in the consensus
scores (looked up by id) and in the total; the per-criterion `max`, which
is taken from the last run reporting the id, and the emission order of
the criteria are NOT invariant (see the counterexample). -/
theorem C8_scores_total_invariant (r1 r2 : List Run) (h : r1.Perm r2) :
    (∀ i : String,
      (((evaluateC r1).criterios.find? (fun c => c.id == i)).map (·.score)) =
      (((evaluateC r2).criterios.find? (fun c => c.id == i)).map (·.score)))
    ∧ (evaluateC r1).total = (evaluateC r2).total := by
  have hf : r1.flatten.Perm r2.flatten := flatten_perm h
  have hkeymem : ∀ i, i ∈ keysOf r1.flatten ↔ i ∈ keysOf r2.flatten := by
    intro i
    rw [mem_keysOf, mem_keysOf]
    exact (hf.map _).mem_iff
  have hval : ∀ i, pyRound (listMean (scoresFor r1.flatten i)) =
      pyRound (listMean (scoresFor r2.flatten i)) := fun i => by
    have hsp : (scoresFor r1.flatten i).Perm (scoresFor r2.flatten i) := by
      unfold scoresFor
      exact (hf.filter _).map _
    rw [listMean_perm hsp]
  constructor
  · intro i
    rw [find?_criterios, find?_criterios]
    by_cases hi : i ∈ keysOf r1.flatten
    · rw [if_pos hi, if_pos ((hkeymem i).mp hi)]
      simp only [Option.map_some']
      exact congrArg some (hval i)
    · rw [if_neg hi, if_neg fun hh => hi ((hkeymem i).mpr hh)]
  · rw [evaluateC_total_char, evaluateC_total_char,
      evaluateC_criterios_char, evaluateC_criterios_char,
      List.map_map, List.map_map]
    have hg1 : ((fun c : OutCrit => c.score) ∘ fun k =>
        (⟨k, pyRound (listMean (scoresFor r1.flatten k)),
          lastMaxFor r1.flatten k, []⟩ : OutCrit)) =
        fun k => pyRound (listMean (scoresFor r1.flatten k)) := rfl
    have hg2 : ((fun c : OutCrit => c.score) ∘ fun k =>
        (⟨k, pyRound (listMean (scoresFor r2.flatten k)),
          lastMaxFor r2.flatten k, []⟩ : OutCrit)) =
        fun k => pyRound (listMean (scoresFor r2.flatten k)) := rfl
    rw [hg1, hg2, funext hval]
    have hkp : (keysOf r1.flatten).Perm (keysOf r2.flatten) :=
      (List.perm_ext_iff_of_nodup (keysOf_nodup _) (keysOf_nodup _)).mpr
        hkeymem
    exact (hkp.map _).sum_eq

/-- C8, counterexample.  Two runs agreeing on the score of `"c1"` but
reporting `max` 5 and 7: in one order the consensus `max` is 7 (from the
last run), in the swapped order it is 5, so aggregation is not
order-independent in the `max` values, refuting the claim as stated. -/
theorem C8_last_max_order_dependent_cex :
    runsMaxSecond.Perm runsMaxFirst
    ∧ evaluateC runsMaxFirst ≠ evaluateC runsMaxSecond := by
  refine ⟨List.Perm.swap _ _ _, ?_⟩
  have h1 : evaluateC runsMaxFirst = ⟨[⟨"c1", 2, 7, []⟩], 2⟩ := by
    simp only [evaluateC, consensusState, consStep, updAppend, updSet,
      lookupInt, scOf, mxOf, listMean, runsMaxFirst, List.foldl, List.map,
      List.find?, List.sum, pyRound, ratFloor_eq_intFloor]
    norm_num
  have h2 : evaluateC runsMaxSecond = ⟨[⟨"c1", 2, 5, []⟩], 2⟩ := by
    simp only [evaluateC, consensusState, consStep, updAppend, updSet,
      lookupInt, scOf, mxOf, listMean, runsMaxSecond, List.foldl, List.map,
      List.find?, List.sum, pyRound, ratFloor_eq_intFloor]
    norm_num
  rw [h1, h2]
  decide

/-- C8, witness: the amended invariance applied to the two concrete
two-run lists related by a swap. -/
theorem C8_witness :
    (((evaluateC runsMaxSecond).criterios.find?
        (fun c => c.id == "c1")).map (·.score)) =
      (((evaluateC runsMaxFirst).criterios.find?
        (fun c => c.id == "c1")).map (·.score))
    ∧ (evaluateC runsMaxSecond).total = (evaluateC runsMaxFirst).total := by
  have h := C8_scores_total_invariant runsMaxSecond runsMaxFirst
    (List.Perm.swap _ _ _)
  exact ⟨h.1 "c1", h.2⟩

end AutoEval
